import Mathlib

/-!
Shallow embedding of the k8s.ingress.kv core: the UDP peer-discovery
protocol (`UDPDiscovery` in src/unnamed/part_001) and the replicated
cache engine (`KVCache` in src/src/kv-cache.js), together with the
HTTP status mapping of src/src/index.js.  Machine integers follow the
JavaScript 32-bit semantics explicitly; promise settlement is modelled
by explicit outcome/settle-time records.
-/

/-- JavaScript values as seen by the cache: `vnull` is the JS `null`
(also the "not found" sentinel of `KVCache.get`); any other
JSON-serializable payload is opaque. -/
inductive Value where
  | vnull
  | vdata (payload : String)
deriving DecidableEq, Repr

/-- JS `ToInt32`: reduce an integer into the signed 32-bit range,
as performed by the `hash & hash` and `<<` operations in the source. -/
def toInt32 (n : Int) : Int :=
  let m := n % 4294967296
  if m < 2147483648 then m else m - 4294967296

/-- One step of the rolling hash of `KVCache.hashKey`:
`hash = ((hash << 5) - hash) + char; hash = hash & hash`.
The shift operates on (and truncates to) 32-bit integers. -/
def hashStep (hash : Int) (c : Nat) : Int :=
  toInt32 (toInt32 (hash * 32) - hash + c)

/-- Source `KVCache.hashKey` (src/src/kv-cache.js lines 22-30): rolling hash over
the key's code units, ending in `Math.abs`. -/
def hashKey (key : String) : Nat :=
  (key.data.foldl (fun h ch => hashStep h ch.toNat) 0).natAbs

/-- A Peer Registry entry, as built by
`UDPDiscovery.handleDiscoveryMessage` (src/unnamed/part_001 lines 89-95). -/
structure Peer where
  name : String
  ip : String
  port : Nat
  lastSeen : Int
  discoveryIP : String
deriving DecidableEq, Repr

instance : Inhabited Peer := ⟨⟨"", "", 0, 0, ""⟩⟩

/-- Source `this.replicationFactor = 2` (src/src/kv-cache.js line 7). -/
def replicationFactor : Nat := 2

/-- Source `KVCache.getResponsiblePeers` (src/src/kv-cache.js lines 33-47):
empty snapshot yields an empty set; otherwise pick
`min(replicationFactor, N)` peers starting at `hash mod N`, wrapping
circularly over the snapshot list. -/
def getResponsiblePeers (peers : List Peer) (key : String) : List Peer :=
  if peers.length = 0 then []
  else
    let startIndex := hashKey key % peers.length
    (List.range (min replicationFactor peers.length)).map
      (fun i => peers.getD ((startIndex + i) % peers.length) default)

example : hashKey "x" = 120 := by decide
example : getResponsiblePeers [] "x" = [] := by decide

/-! Membership protocol (`UDPDiscovery`, src/unnamed/part_001). -/

/-- Local identity used to filter inbound announcements
(`this.tenant`, `this.podName`). -/
structure DiscoveryConfig where
  tenant : String
  podName : String
deriving DecidableEq, Repr

/-- Parsed JSON announcement exactly as `handleDiscoveryMessage` sees
it: `JSON.parse` only guarantees a JSON value, so each expected field
(src/unnamed/part_001 lines 21-28) may be absent — the JS `undefined`,
modelled as `none`.  (A field holding a value of the wrong JSON type
behaves in every comparison the handler makes like an absent one and
is modelled by `none` as well.) -/
structure RawMsg where
  type : Option String
  tenant : Option String
  podName : Option String
  podIP : Option String
  servicePort : Option Nat
  timestamp : Option Int
deriving DecidableEq, Repr

/-- Registry entry exactly as constructed at src/unnamed/part_001
lines 89-95: the fields copied from the announcement may be the JS
`undefined` when the announcement lacked them. -/
structure RawPeer where
  name : Option String
  ip : Option String
  port : Option Nat
  lastSeen : Int
  discoveryIP : String
deriving DecidableEq, Repr

/-- Peer-event kind passed to the discovery callbacks. -/
inductive PeerAction where
  | added
  | removed
deriving DecidableEq, Repr

/-- Source `UDPDiscovery.handleDiscoveryMessage` (src/unnamed/part_001 lines
78-105).  Returns the updated registry and the list of fired peer
events.  The guards: `message.type !== 'discovery'` holds unless the
field is present and equals "discovery"; `message.tenant !== this.tenant`
likewise; `message.podName === this.podName` holds only when the field
is present and equals the local name — an absent `podName` passes the
guard, so such a message is processed, keyed by `undefined`.  A new
sender key inserts an entry (fields copied verbatim, `undefined`
included) and fires an added event; a known key only refreshes its
lastSeen timestamp. -/
def handleDiscoveryMessage (cfg : DiscoveryConfig) (peers : List RawPeer)
    (message : RawMsg) (rinfoAddress : String) (now : Int) :
    List RawPeer × List (RawPeer × PeerAction) :=
  if message.type ≠ some "discovery" ∨ message.tenant ≠ some cfg.tenant ∨
      message.podName = some cfg.podName then
    (peers, [])
  else
    let peerKey := message.podName
    let peer : RawPeer :=
      ⟨message.podName, message.podIP, message.servicePort, now, rinfoAddress⟩
    if peers.any (fun p => p.name = peerKey) then
      (peers.map (fun p => if p.name = peerKey then { p with lastSeen := now } else p), [])
    else
      (peers ++ [peer], [(peer, PeerAction.added)])

/-- Inbound datagram as handed to the socket message handler
(src/unnamed/part_001 lines 51-58): `none` models a payload that
`JSON.parse` rejects, which the handler silently ignores. -/
def handleDatagram (cfg : DiscoveryConfig) (peers : List RawPeer)
    (raw : Option RawMsg) (rinfoAddress : String) (now : Int) :
    List RawPeer × List (RawPeer × PeerAction) :=
  match raw with
  | none => (peers, [])
  | some m => handleDiscoveryMessage cfg peers m rinfoAddress now

/-- Registry state after processing a sequence of inbound datagrams,
each with its source address and receipt time. -/
def processDatagrams (cfg : DiscoveryConfig) (peers : List RawPeer) :
    List (Option RawMsg × String × Int) → List RawPeer
  | [] => peers
  | (raw, addr, now) :: rest =>
      processDatagrams cfg (handleDatagram cfg peers raw addr now).1 rest

/-- Source `staleThreshold = 90000` milliseconds (src/unnamed/part_001 line 215). -/
def staleThreshold : Int := 90000

/-- Source `UDPDiscovery.cleanupStalePeers` (src/unnamed/part_001 lines 213-224):
walk the registry, delete every peer whose last-seen age strictly
exceeds the stale threshold, and collect the removed peers in
iteration order (each removal fires one removed notification). -/
def cleanupStalePeers (now : Int) : List Peer → List Peer × List Peer
  | [] => ([], [])
  | p :: rest =>
    let (kept, removedPeers) := cleanupStalePeers now rest
    if now - p.lastSeen > staleThreshold then (kept, p :: removedPeers)
    else (p :: kept, removedPeers)

/-- Source `UDPDiscovery.notifyPeerDiscovered` (src/unnamed/part_001 lines
226-234): deliver one event to each of the registered callbacks,
identified here by their registration index. -/
def notifyPeerDiscovered (callbackCount : Nat) (peer : Peer)
    (action : PeerAction) : List (Nat × Peer × PeerAction) :=
  (List.range callbackCount).map (fun c => (c, peer, action))

/-- All callback deliveries produced by one cleanup tick: one removed
notification per removed peer, fanned out to every callback. -/
def cleanupDeliveries (callbackCount : Nat) (now : Int)
    (peers : List Peer) : List (Nat × Peer × PeerAction) :=
  ((cleanupStalePeers now peers).2).flatMap
    (fun p => notifyPeerDiscovered callbackCount p PeerAction.removed)

/-- Outcome of the socket bind attempt inside `UDPDiscovery.start`. -/
inductive BindResult where
  | ok
  | err (message : String)
deriving DecidableEq, Repr

/-- Settlement of the promise returned by `UDPDiscovery.start`:
`pending` means the promise never settles. -/
inductive StartOutcome where
  | resolved
  | rejected (message : String)
  | pending
deriving DecidableEq, Repr

/-- Observable side effects of `UDPDiscovery.start`: whether the
heartbeat timer and the cleanup timer were started, and whether the
initial discovery broadcast was sent. -/
structure StartEffects where
  heartbeatStarted : Bool
  cleanupStarted : Bool
  initialBroadcastSent : Bool
deriving DecidableEq, Repr

/-- Source `UDPDiscovery.start` (src/unnamed/part_001 lines 111-136): on a
successful bind the socket emits listening, the bind callback runs
with no argument, the inner promise resolves, and start() starts the
heartbeat, starts the cleanup timer and sends the initial broadcast.
On a bind failure the dgram API emits an error event instead — the
callback passed to `socket.bind(port, cb)` is registered as a
listening listener and receives no error argument — so the handler
installed at lines 47-49 only logs the error, neither `resolve` nor
`reject` of the executor at lines 117-121 ever runs, the awaited
promise never settles, the catch block at lines 133-135 is unreachable
for bind failures, and start()'s returned promise stays pending
forever with none of the Running-state activities started. -/
def UDPDiscovery.start (bind : BindResult) : StartOutcome × StartEffects :=
  match bind with
  | BindResult.ok => (StartOutcome.resolved, ⟨true, true, true⟩)
  | BindResult.err _ => (StartOutcome.pending, ⟨false, false, false⟩)

/-! Replicated cache engine (`KVCache`, src/src/kv-cache.js).  The Local
Store (`this.cache`, a JS `Map`) is an association list keyed by the
key string, with `Map.set` updating in place and appending new keys. -/

/-- Local Store contents. -/
abbrev Cache := List (String × Value)

/-- JS `Map.get`: the value stored under a key, if present. -/
def cacheGet? (cache : Cache) (key : String) : Option Value :=
  (cache.find? (fun e => e.1 = key)).map (fun e => e.2)

/-- JS `Map.has`. -/
def cacheHas (cache : Cache) (key : String) : Bool :=
  (cache.find? (fun e => e.1 = key)).isSome

/-- JS `Map.set`: replace in place when the key exists, append otherwise. -/
def cacheSet (cache : Cache) (key : String) (value : Value) : Cache :=
  if cacheHas cache key then
    cache.map (fun e => if e.1 = key then (key, value) else e)
  else
    cache ++ [(key, value)]

/-- JS `Map.delete`. -/
def cacheDelete (cache : Cache) (key : String) : Cache :=
  cache.filter (fun e => e.1 ≠ key)

/-- Settlement of one `getFromPeer` call as observed by `KVCache.get`
(src/src/kv-cache.js lines 138-175): `failed` is a rejected promise
(transport error, timeout, unexpected status); `resolved v` is a
fulfilled one — a 404 resolves with the JS `null` (`Value.vnull`), a
200 resolves with the parsed value, which may itself be null. -/
inductive PeerResponse where
  | failed
  | resolved (value : Value)
deriving DecidableEq, Repr

/-- Remote phase of `KVCache.get` (src/src/kv-cache.js lines 62-78):
walk the responsible peers in order; a rejected call is logged and
skipped; the first non-null resolved value is cached locally and
returned; exhausting the list yields the null sentinel.  Returns the
value, the updated Local Store, and the number of remote calls issued. -/
def getRemoteLoop (cache : Cache) (key : String) :
    List PeerResponse → Value × Cache × Nat
  | [] => (Value.vnull, cache, 0)
  | r :: rest =>
    match r with
    | PeerResponse.failed =>
      let res := getRemoteLoop cache key rest
      (res.1, res.2.1, res.2.2 + 1)
    | PeerResponse.resolved value =>
      if value = Value.vnull then
        let res := getRemoteLoop cache key rest
        (res.1, res.2.1, res.2.2 + 1)
      else
        (value, cacheSet cache key value, 1)

/-- Source `KVCache.get` (src/src/kv-cache.js lines 56-79): serve from the
Local Store when the key is present (no remote call); otherwise query
the responsible peers in order.  `responses` gives each peer's
reply for this key. -/
def KVCache.get (cache : Cache) (peers : List Peer)
    (responses : Peer → PeerResponse) (key : String) :
    Value × Cache × Nat :=
  match cacheGet? cache key with
  | some v => (v, cache, 0)
  | none => getRemoteLoop cache key ((getResponsiblePeers peers key).map responses)

/-- Settlement of one `setOnPeer` replication call: whether its promise
fulfilled (HTTP 200 acknowledgement) or rejected, and when it settled. -/
structure ReplicaOutcome where
  success : Bool
  settleTime : Nat
deriving DecidableEq, Repr

/-- JS `Promise.race` over the replication promises of `KVCache.set`
(src/src/kv-cache.js lines 87-95).  Each promise is wrapped in a
`.catch` that logs and fulfills, so the race settles (by fulfillment)
at the earliest settle time, whatever that replication's outcome —
and never settles at all when the list is empty. -/
def raceSettleTime (outcomes : List ReplicaOutcome) : Option Nat :=
  (outcomes.map (fun o => o.settleTime)).min?

/-- Number of replications that have completed successfully by time `t`. -/
def successfulReplicationsBy (outcomes : List ReplicaOutcome) (t : Nat) : Nat :=
  (outcomes.filter (fun o => o.success && decide (o.settleTime ≤ t))).length

/-- Source `KVCache.set` (src/src/kv-cache.js lines 81-101): store locally
first, fire one replication per responsible peer, await the race of
the caught replication promises, and return `true`.  The result is the
new Local Store, the time at which `set`'s own promise resolves
(`none` means it stays pending forever), and the returned value. -/
def KVCache.set (cache : Cache) (key : String) (value : Value)
    (peers : List Peer) (repl : Peer → ReplicaOutcome) :
    Cache × Option Nat × Bool :=
  let cache' := cacheSet cache key value
  let outcomes := (getResponsiblePeers peers key).map repl
  (cache', raceSettleTime outcomes, true)

/-- Source `KVCache.delete` (src/src/kv-cache.js lines 103-117): remove the
key from the Local Store, issue best-effort remote deletions to the
responsible peers (`Promise.allSettled`, results ignored), return
`true`. -/
def KVCache.delete (cache : Cache) (key : String) (peers : List Peer) :
    Cache × Bool :=
  (cacheDelete cache key, true)

/-- Source `KVCache.keys` (src/src/kv-cache.js lines 119-135): a JS `Set`
seeded with the local keys, then extended with every key list a peer
returned; `Set` insertion keeps the first occurrence. -/
def KVCache.keys (cache : Cache) (peerKeyLists : List (List String)) :
    List String :=
  ((cache.map (fun e => e.1)) ++ peerKeyLists.flatten).foldl
    (fun acc k => if k ∈ acc then acc else acc ++ [k]) []

/-- HTTP mapping of the GET /kv/:key handler (src/src/index.js lines
117-137): a null result from `KVCache.get` becomes a 404, anything
else a 200. -/
def httpGetStatus (value : Value) : Nat :=
  if value = Value.vnull then 404 else 200

/-! Concrete fixtures used by witnesses and counterexamples. -/

/-- A concrete remote peer. -/
def peerOne : Peer := ⟨"peer-1", "10.0.0.1", 3000, 0, "10.0.0.1"⟩

/-- A second concrete remote peer. -/
def peerTwo : Peer := ⟨"peer-2", "10.0.0.2", 3000, 0, "10.0.0.2"⟩

/-- A replication environment where peer-1's replication rejects
quickly (settles at t=1) and peer-2's succeeds later (t=10). -/
def demoRepl : Peer → ReplicaOutcome :=
  fun p => if p.name = "peer-1" then ⟨false, 1⟩ else ⟨true, 10⟩

/-! Claim theorems. -/

/-- C1 (counterexample): with the bind failing (e.g. EADDRINUSE), the
promise returned by `UDPDiscovery.start` never settles — in
particular it does not reject and no error propagates, so the failure
is not surfaced to the caller, contrary to the claim; the protocol
still does not enter Running (no heartbeat timer, no cleanup timer,
no initial announcement). -/
theorem start_bind_failure_pending :
    UDPDiscovery.start (BindResult.err "EADDRINUSE") =
      (StartOutcome.pending, ⟨false, false, false⟩) := rfl

/-- C1 (amended): if binding the discovery socket to its configured
port fails, `start()` does not enter Running — the heartbeat timer and
cleanup timer are not started and no initial announcement is sent —
but the failure is not surfaced to the caller: the bind error is
emitted as an error event that is merely logged, the bind callback
never fires, and the promise returned by `start()` never settles, so
a caller awaiting it suspends forever. -/
theorem start_bind_failure_never_settles (m : String) :
    UDPDiscovery.start (BindResult.err m) =
      (StartOutcome.pending, ⟨false, false, false⟩) := rfl

/-- C2 (code bug, evaluated): for key "x" with two responsible peers,
where the first replication rejects at t=1 and the second succeeds at
t=10, `KVCache.set` resolves at t=1 — the race over the catch-wrapped
replication promises settles on the first settlement — at which point
zero replications have completed successfully, contradicting the
claim (and the source's own comment "Wait for at least one successful
replication"). -/
theorem set_resolves_before_any_successful_replication :
    (getResponsiblePeers [peerOne, peerTwo] "x").length = 2 ∧
    (KVCache.set [] "x" (Value.vdata "1") [peerOne, peerTwo] demoRepl).2.1 = some 1 ∧
    successfulReplicationsBy
      ((getResponsiblePeers [peerOne, peerTwo] "x").map demoRepl) 1 = 0 := by
  decide

/-- C7: the Partitioning Function is deterministic — two invocations
of `getResponsiblePeers` with the same key and the same ordered peer
snapshot return the identical Responsibility Set. -/
theorem getResponsiblePeers_deterministic (key : String)
    (peers1 peers2 : List Peer) (h : peers1 = peers2) :
    getResponsiblePeers peers1 key = getResponsiblePeers peers2 key := by
  rw [h]

/-- C7 witness: determinism instantiated on a concrete snapshot. -/
theorem getResponsiblePeers_deterministic_witness :
    getResponsiblePeers [peerOne] "x" = getResponsiblePeers [peerOne] "x" :=
  getResponsiblePeers_deterministic "x" [peerOne] [peerOne] rfl

/-- C4: with `N` known peers, `getResponsiblePeers` returns the empty
list when `N = 0`, and otherwise exactly `min 2 N` peers, the entries
at positions `((hashKey key mod N) + i) mod N` of the peer list for
`i = 0 .. min 2 N - 1`, wrapping circularly. -/
theorem getResponsiblePeers_positions (peers : List Peer) (key : String) :
    (peers.length = 0 → getResponsiblePeers peers key = []) ∧
    (0 < peers.length →
      (getResponsiblePeers peers key).length = min 2 peers.length ∧
      ∀ i < min 2 peers.length,
        (getResponsiblePeers peers key)[i]? =
          peers[(hashKey key % peers.length + i) % peers.length]?) := by
  constructor
  · intro h
    simp [getResponsiblePeers, h]
  · intro h
    have hlen : peers.length ≠ 0 := Nat.pos_iff_ne_zero.mp h
    refine ⟨by simp [getResponsiblePeers, hlen, replicationFactor], ?_⟩
    intro i hi
    have hi' : i < min replicationFactor peers.length := by
      simpa [replicationFactor] using hi
    have hidx : (hashKey key % peers.length + i) % peers.length < peers.length :=
      Nat.mod_lt _ h
    simp only [getResponsiblePeers, if_neg hlen, List.getElem?_map,
      List.getElem?_range hi', Option.map_some', List.getD_eq_getElem?_getD,
      List.getElem?_eq_getElem hidx, Option.getD_some]

/-- C4 witness: the empty-snapshot case and the one-peer case of the
position formula, instantiated concretely. -/
theorem getResponsiblePeers_positions_witness :
    getResponsiblePeers [] "x" = [] ∧
    (getResponsiblePeers [peerOne] "x").length = min 2 1 ∧
    (getResponsiblePeers [peerOne] "x")[0]? =
      [peerOne][(hashKey "x" % 1 + 0) % 1]? :=
  ⟨(getResponsiblePeers_positions [] "x").1 rfl,
   ((getResponsiblePeers_positions [peerOne] "x").2 (by decide)).1,
   ((getResponsiblePeers_positions [peerOne] "x").2 (by decide)).2 0 (by decide)⟩

/-! Cache-lookup helper lemmas. -/

lemma find?_map_set_of_has (cache : Cache) (key : String) (value : Value)
    (h : (cache.find? (fun e => e.1 = key)).isSome) :
    ((cache.map (fun e => if e.1 = key then (key, value) else e)).find?
      (fun e => e.1 = key)) = some (key, value) := by
  induction cache with
  | nil => simp at h
  | cons e rest ih =>
    by_cases he : e.1 = key
    · simp only [List.map_cons, if_pos he]
      exact List.find?_cons_of_pos _ (by simp)
    · simp only [List.map_cons, if_neg he]
      rw [List.find?_cons_of_neg _ (by simpa using he)]
      rw [List.find?_cons_of_neg _ (by simpa using he)] at h
      exact ih h

lemma cacheGet?_cacheSet_self (cache : Cache) (key : String) (value : Value) :
    cacheGet? (cacheSet cache key value) key = some value := by
  unfold cacheSet
  by_cases h : cacheHas cache key
  · rw [if_pos h]
    unfold cacheGet?
    rw [find?_map_set_of_has cache key value h]
    rfl
  · rw [if_neg h]
    unfold cacheGet?
    rw [List.find?_append]
    have hn : cache.find? (fun e => e.1 = key) = none := by
      unfold cacheHas at h
      exact Option.not_isSome_iff_eq_none.mp h
    simp [hn, List.find?]

lemma cacheHas_eq_isSome (cache : Cache) (key : String) :
    cacheHas cache key = (cacheGet? cache key).isSome := by
  unfold cacheHas cacheGet?
  cases cache.find? (fun e => e.1 = key) <;> rfl

lemma mem_map_fst_of_cacheGet?_some (cache : Cache) (key : String)
    (value : Value) (h : cacheGet? cache key = some value) :
    key ∈ cache.map (fun e => e.1) := by
  unfold cacheGet? at h
  cases hf : cache.find? (fun e => e.1 = key) with
  | none => rw [hf] at h; simp at h
  | some e =>
    have he : e ∈ cache := List.mem_of_find?_eq_some hf
    have hp := List.find?_some hf
    simp only [decide_eq_true_eq] at hp
    exact hp ▸ List.mem_map_of_mem _ he

lemma mem_foldl_insertKey (l : List String) (acc : List String) (x : String) :
    x ∈ l.foldl (fun acc k => if k ∈ acc then acc else acc ++ [k]) acc ↔
      x ∈ acc ∨ x ∈ l := by
  induction l generalizing acc with
  | nil => simp
  | cons a l ih =>
    by_cases ha : a ∈ acc
    · simp only [List.foldl_cons, if_pos ha, ih, List.mem_cons]
      constructor
      · rintro (h | h)
        · exact Or.inl h
        · exact Or.inr (Or.inr h)
      · rintro (h | h | h)
        · exact Or.inl h
        · subst h; exact Or.inl ha
        · exact Or.inr h
    · simp only [List.foldl_cons, if_neg ha, ih, List.mem_append,
        List.mem_singleton, List.mem_cons]
      tauto

lemma getRemoteLoop_all_null (cache : Cache) (key : String)
    (rs : List PeerResponse)
    (h : ∀ r ∈ rs, r = PeerResponse.failed ∨
        r = PeerResponse.resolved Value.vnull) :
    (getRemoteLoop cache key rs).1 = Value.vnull := by
  induction rs with
  | nil => rfl
  | cons r rest ih =>
    have hrest : ∀ r ∈ rest, r = PeerResponse.failed ∨
        r = PeerResponse.resolved Value.vnull :=
      fun r hr => h r (List.mem_cons_of_mem _ hr)
    rcases h r (List.mem_cons_self r rest) with hr | hr <;> subst hr
    · simpa [getRemoteLoop] using ih hrest
    · simpa [getRemoteLoop] using ih hrest

lemma cacheGet?_cacheDelete_self (cache : Cache) (key : String) :
    cacheGet? (cacheDelete cache key) key = none := by
  unfold cacheGet? cacheDelete
  rw [List.find?_eq_none.mpr]
  · rfl
  · intro e he hpe
    have h1 := (List.mem_filter.mp he).2
    simp only [decide_eq_true_eq] at hpe
    simp [hpe] at h1

/-- C8: `set(k, v)` followed immediately by `get(k)` on the same
instance returns `v` from the Local Store, issuing zero remote calls,
for every cache state, peer snapshot and remote environment. -/
theorem set_then_get_local (cache : Cache) (key : String) (value : Value)
    (peers : List Peer) (responses : Peer → PeerResponse)
    (repl : Peer → ReplicaOutcome) :
    KVCache.get (KVCache.set cache key value peers repl).1 peers responses key =
      (value, (KVCache.set cache key value peers repl).1, 0) := by
  have h := cacheGet?_cacheSet_self cache key value
  simp [KVCache.get, KVCache.set, h]

/-- C9: after `set(k, null)` the public `get` returns the null
sentinel (`Value.vnull`), which the HTTP layer maps to 404, yet the
key is still present in the Local Store and is listed by `keys()`. -/
theorem set_null_indistinguishable_from_absent (cache : Cache)
    (key : String) (peers : List Peer) (responses : Peer → PeerResponse)
    (repl : Peer → ReplicaOutcome) (peerKeyLists : List (List String)) :
    (KVCache.get (KVCache.set cache key Value.vnull peers repl).1
        peers responses key).1 = Value.vnull ∧
    httpGetStatus (KVCache.get (KVCache.set cache key Value.vnull peers repl).1
        peers responses key).1 = 404 ∧
    cacheHas (KVCache.set cache key Value.vnull peers repl).1 key = true ∧
    key ∈ KVCache.keys (KVCache.set cache key Value.vnull peers repl).1
        peerKeyLists := by
  have h := cacheGet?_cacheSet_self cache key Value.vnull
  refine ⟨?_, ?_, ?_, ?_⟩
  · simp [KVCache.get, KVCache.set, h]
  · simp [KVCache.get, KVCache.set, h, httpGetStatus]
  · rw [cacheHas_eq_isSome]
    simp only [KVCache.set] at h ⊢
    simp [h]
  · have hmem : key ∈ ((KVCache.set cache key Value.vnull peers repl).1).map
        (fun e => e.1) :=
      mem_map_fst_of_cacheGet?_some _ _ _ h
    unfold KVCache.keys
    rw [mem_foldl_insertKey]
    exact Or.inr (List.mem_append.mpr (Or.inl hmem))

/-- C3 (counterexample): with one responsible peer that still holds
the value "1" for key "x" (its remote deletion having failed),
`delete("x")` followed by `get("x")` on the same instance returns
`vdata "1"` fetched from that peer — not the null sentinel. -/
theorem delete_then_get_refetches_from_peer :
    (KVCache.get (KVCache.delete [("x", Value.vdata "1")] "x" [peerOne]).1
        [peerOne] (fun _ => PeerResponse.resolved (Value.vdata "1")) "x").1 =
      Value.vdata "1" ∧
    Value.vdata "1" ≠ Value.vnull := by
  decide

/-- C3 (amended): `delete(k)` followed by `get(k)` on the same
instance returns the null sentinel provided no responsible peer
returns a non-null value for `k` — every responsible peer either
fails or reports the key absent/null.  (If some responsible peer
still holds a value, `get` re-fetches it read-through.) -/
theorem delete_then_get_not_found (cache : Cache) (key : String)
    (peers : List Peer) (responses : Peer → PeerResponse)
    (h : ∀ p ∈ getResponsiblePeers peers key,
        responses p = PeerResponse.failed ∨
        responses p = PeerResponse.resolved Value.vnull) :
    (KVCache.get (KVCache.delete cache key peers).1 peers responses key).1 =
      Value.vnull := by
  have hd : cacheGet? (KVCache.delete cache key peers).1 key = none :=
    cacheGet?_cacheDelete_self cache key
  simp only [KVCache.get, hd]
  exact getRemoteLoop_all_null _ _ _ (by
    intro r hr
    rcases List.mem_map.mp hr with ⟨p, hp, hpr⟩
    exact hpr ▸ h p hp)

/-- C3 witness for the amended statement: with no peers at all,
delete-then-get on a one-entry store returns the null sentinel. -/
theorem delete_then_get_not_found_witness :
    (KVCache.get (KVCache.delete [("x", Value.vdata "1")] "x" []).1
        [] (fun _ => PeerResponse.failed) "x").1 = Value.vnull :=
  delete_then_get_not_found [("x", Value.vdata "1")] "x" []
    (fun _ => PeerResponse.failed)
    (by intro p hp; simp [getResponsiblePeers] at hp)

/-! Cleanup-tick helper lemmas. -/

lemma cleanupStalePeers_eq_filter (now : Int) (peers : List Peer) :
    cleanupStalePeers now peers =
      (peers.filter (fun p => ¬ now - p.lastSeen > staleThreshold),
       peers.filter (fun p => now - p.lastSeen > staleThreshold)) := by
  induction peers with
  | nil => rfl
  | cons p rest ih =>
    by_cases hp : now - p.lastSeen > staleThreshold
    · simp only [cleanupStalePeers, ih, if_pos hp, List.filter_cons]
      rw [if_neg (by simp only [decide_eq_true_eq, not_not]; omega),
        if_pos (by simp only [decide_eq_true_eq]; omega)]
    · simp only [cleanupStalePeers, ih, if_neg hp, List.filter_cons]
      rw [if_pos (by simp only [decide_eq_true_eq]; omega),
        if_neg (by simp only [decide_eq_true_eq]; omega)]

lemma count_notify_aux (q : Peer) (c : Nat) (p : Peer) (l : List Nat) :
    List.count (c, p, PeerAction.removed)
      (l.map (fun i => (i, q, PeerAction.removed))) =
      if q = p then List.count c l else 0 := by
  induction l with
  | nil => simp
  | cons a l ih =>
    simp only [List.map_cons, List.count_cons, ih]
    by_cases hq : q = p
    · subst hq
      by_cases hac : a = c
      · simp [hac]
      · simp [hac, Prod.ext_iff]
    · simp [hq, Prod.ext_iff]

lemma count_notify (cb : Nat) (q : Peer) (c : Nat) (p : Peer) :
    List.count (c, p, PeerAction.removed)
      (notifyPeerDiscovered cb q PeerAction.removed) =
      if q = p ∧ c < cb then 1 else 0 := by
  unfold notifyPeerDiscovered
  rw [count_notify_aux]
  by_cases hq : q = p
  · by_cases hc : c < cb
    · rw [if_pos hq, if_pos ⟨hq, hc⟩]
      exact List.count_eq_one_of_mem (List.nodup_range cb) (List.mem_range.mpr hc)
    · rw [if_pos hq, if_neg (fun h => hc h.2)]
      exact List.count_eq_zero.mpr (fun h => hc (List.mem_range.mp h))
  · rw [if_neg hq, if_neg (fun h => hq h.1)]

lemma count_deliveries (cb : Nat) (l : List Peer) (c : Nat) (p : Peer) :
    List.count (c, p, PeerAction.removed)
      (l.flatMap (fun q => notifyPeerDiscovered cb q PeerAction.removed)) =
      if c < cb then List.count p l else 0 := by
  induction l with
  | nil => simp
  | cons q rest ih =>
    simp only [List.flatMap_cons, List.count_append, ih, count_notify,
      List.count_cons]
    by_cases hc : c < cb
    · by_cases hq : q = p
      · subst hq; simp [hc, Nat.add_comm]
      · simp [hc, hq, Ne.symm hq]
    · simp [hc, fun h : q = p ∧ c < cb => hc h.2]

/-- C5: on a cleanup tick, every registry entry whose last-seen age
strictly exceeds 90 seconds is removed and exactly one removed event
is fired for it — delivered once to each registered callback — while
every entry whose age is at most 90 seconds stays in the registry
unchanged, with no removed event. -/
theorem cleanup_removes_exactly_stale (now : Int) (peers : List Peer)
    (callbackCount : Nat) (hnd : (peers.map Peer.name).Nodup) :
    (∀ p ∈ peers, now - p.lastSeen > staleThreshold →
        p ∉ (cleanupStalePeers now peers).1 ∧
        List.count p (cleanupStalePeers now peers).2 = 1 ∧
        ∀ c < callbackCount,
          List.count (c, p, PeerAction.removed)
            (cleanupDeliveries callbackCount now peers) = 1) ∧
    (∀ p ∈ peers, now - p.lastSeen ≤ staleThreshold →
        p ∈ (cleanupStalePeers now peers).1 ∧
        List.count p (cleanupStalePeers now peers).2 = 0) := by
  have hndp : peers.Nodup := List.Nodup.of_map _ hnd
  have hfil := cleanupStalePeers_eq_filter now peers
  constructor
  · intro p hp hstale
    have hmemrem : p ∈ peers.filter (fun p => now - p.lastSeen > staleThreshold) :=
      List.mem_filter.mpr ⟨hp, by simpa using hstale⟩
    have hcount : List.count p
        (peers.filter (fun p => now - p.lastSeen > staleThreshold)) = 1 :=
      List.count_eq_one_of_mem (List.Nodup.filter _ hndp) hmemrem
    refine ⟨?_, ?_, ?_⟩
    · rw [hfil]
      intro hmem
      have := (List.mem_filter.mp hmem).2
      simp only [decide_eq_true_eq] at this
      exact this hstale
    · rw [hfil]
      exact hcount
    · intro c hc
      unfold cleanupDeliveries
      rw [hfil]
      rw [count_deliveries, if_pos hc]
      exact hcount
  · intro p hp hfresh
    have hnot : ¬ now - p.lastSeen > staleThreshold := not_lt.mpr hfresh
    constructor
    · rw [hfil]
      exact List.mem_filter.mpr ⟨hp, by simpa using hnot⟩
    · rw [hfil]
      refine List.count_eq_zero.mpr (fun hmem => ?_)
      have := (List.mem_filter.mp hmem).2
      simp only [decide_eq_true_eq] at this
      exact hnot this

/-- A registry entry that has been silent for 100 seconds. -/
def stalePeer : Peer := ⟨"stale", "10.0.0.3", 3000, 0, "10.0.0.3"⟩

/-- A registry entry last seen 50 seconds ago. -/
def freshPeer : Peer := ⟨"fresh", "10.0.0.4", 3000, 50000, "10.0.0.4"⟩

/-- C5 witness: at time 100000 with one callback, the 100s-silent peer
is removed with exactly one delivered event and the 50s-old peer stays. -/
theorem cleanup_removes_exactly_stale_witness :
    stalePeer ∉ (cleanupStalePeers 100000 [stalePeer, freshPeer]).1 ∧
    List.count stalePeer (cleanupStalePeers 100000 [stalePeer, freshPeer]).2 = 1 ∧
    List.count (0, stalePeer, PeerAction.removed)
      (cleanupDeliveries 1 100000 [stalePeer, freshPeer]) = 1 ∧
    freshPeer ∈ (cleanupStalePeers 100000 [stalePeer, freshPeer]).1 ∧
    List.count freshPeer (cleanupStalePeers 100000 [stalePeer, freshPeer]).2 = 0 := by
  have H := cleanup_removes_exactly_stale 100000 [stalePeer, freshPeer] 1 (by decide)
  have hs := H.1 stalePeer (by decide) (by decide)
  have hf := H.2 freshPeer (by decide) (by decide)
  exact ⟨hs.1, hs.2.1, hs.2.2 0 (by decide), hf.1, hf.2⟩

/-! Discovery-receive helper lemmas. -/

lemma handleDatagram_preserves (cfg : DiscoveryConfig) (peers : List RawPeer)
    (raw : Option RawMsg) (addr : String) (now : Int)
    (h : ∀ p ∈ peers, p.name ≠ some cfg.podName) :
    ∀ p ∈ (handleDatagram cfg peers raw addr now).1,
      p.name ≠ some cfg.podName := by
  cases raw with
  | none => exact h
  | some m =>
    show ∀ p ∈ (handleDiscoveryMessage cfg peers m addr now).1, _
    unfold handleDiscoveryMessage
    by_cases hc : m.type ≠ some "discovery" ∨ m.tenant ≠ some cfg.tenant ∨
        m.podName = some cfg.podName
    · rw [if_pos hc]; exact h
    · rw [if_neg hc]
      push_neg at hc
      obtain ⟨-, -, hname⟩ := hc
      by_cases hk : peers.any (fun p => p.name = m.podName)
      · simp only [if_pos hk]
        intro p hp
        rcases List.mem_map.mp hp with ⟨q, hq, hpq⟩
        subst hpq
        by_cases hqn : q.name = m.podName
        · rw [if_pos hqn]; exact h q hq
        · rw [if_neg hqn]; exact h q hq
      · simp only [if_neg hk]
        intro p hp
        rcases List.mem_append.mp hp with hp | hp
        · exact h p hp
        · have hp' : p = ⟨m.podName, m.podIP, m.servicePort, now, addr⟩ := by
            simpa using hp
          subst hp'
          exact hname

lemma processDatagrams_preserves (cfg : DiscoveryConfig)
    (msgs : List (Option RawMsg × String × Int)) :
    ∀ peers : List RawPeer, (∀ p ∈ peers, p.name ≠ some cfg.podName) →
      ∀ p ∈ processDatagrams cfg peers msgs, p.name ≠ some cfg.podName := by
  induction msgs with
  | nil => intro peers h; exact h
  | cons trip rest ih =>
    intro peers h
    obtain ⟨raw, addr, now⟩ := trip
    exact ih _ (handleDatagram_preserves cfg peers raw addr now h)

/-- Local identity of the instance used in the C6 fixtures. -/
def demoCfg : DiscoveryConfig := ⟨"tenant-a", "pod-self"⟩

/-- Announcement carrying only a kind tag and the local tenant — the
sender fields expected of an announcement are absent, i.e. the JSON
payload `{"type":"discovery","tenant":"tenant-a"}`. -/
def noNameMsg : RawMsg :=
  ⟨some "discovery", some "tenant-a", none, none, none, none⟩

/-- C6 (counterexample): the JSON-parseable but malformed datagram
`{"type":"discovery","tenant":"tenant-a"}` — lacking every sender
field — is not dropped: all three guards pass (an absent `podName` is
not `===` the local name), so the handler inserts a registry entry
whose name, ip and port are all `undefined` and fires an added event.
A malformed datagram therefore can create a Peer Registry entry and
fire a peer event, refuting the claim. -/
theorem malformed_announcement_creates_entry :
    handleDatagram demoCfg [] (some noNameMsg) "10.0.0.9" 5 =
      ([⟨none, none, none, 5, "10.0.0.9"⟩],
       [(⟨none, none, none, 5, "10.0.0.9"⟩, PeerAction.added)]) := by
  decide

/-- C6 (amended): an inbound datagram that JSON parsing rejects, or
whose kind tag is not "discovery", or whose tenant differs from the
local tenant, or whose sender name equals the local instance's name,
leaves the Peer Registry unchanged and fires no peer event — but a
JSON-parseable datagram passing those three guards is processed even
when the other announcement fields are missing, inserting an entry
with undefined fields.  The self-exclusion invariant still holds:
after any sequence of received datagrams the registry never contains
an entry whose name is the local instance's. -/
theorem discovery_guards_and_never_self (cfg : DiscoveryConfig)
    (peers : List RawPeer) (m : RawMsg) (addr : String) (now : Int)
    (msgs : List (Option RawMsg × String × Int)) :
    (m.type ≠ some "discovery" ∨ m.tenant ≠ some cfg.tenant ∨
        m.podName = some cfg.podName →
      handleDiscoveryMessage cfg peers m addr now = (peers, [])) ∧
    handleDatagram cfg peers none addr now = (peers, []) ∧
    ((∀ p ∈ peers, p.name ≠ some cfg.podName) →
      ∀ p ∈ processDatagrams cfg peers msgs, p.name ≠ some cfg.podName) := by
  refine ⟨?_, rfl, ?_⟩
  · intro hc
    unfold handleDiscoveryMessage
    rw [if_pos hc]
  · intro h
    exact processDatagrams_preserves cfg msgs peers h

/-- An announcement from a different tenant. -/
def wrongTenantMsg : RawMsg :=
  ⟨some "discovery", some "tenant-b", some "pod-x", some "10.0.0.9",
   some 3000, some 0⟩

/-- A well-formed announcement for the local tenant from pod-x. -/
def goodMsg : RawMsg :=
  ⟨some "discovery", some "tenant-a", some "pod-x", some "10.0.0.9",
   some 3000, some 0⟩

/-- C6 witness: a wrong-tenant datagram and an unparseable one leave
the empty registry untouched with no events, and after receiving a
valid pod-x announcement the resulting registry entry is not named
after the local instance. -/
theorem discovery_guards_and_never_self_witness :
    handleDiscoveryMessage demoCfg [] wrongTenantMsg "10.0.0.9" 0 = ([], []) ∧
    handleDatagram demoCfg [] none "10.0.0.9" 0 = ([], []) ∧
    (⟨some "pod-x", some "10.0.0.9", some 3000, 5, "10.0.0.9"⟩ : RawPeer).name ≠
      some demoCfg.podName := by
  have H := discovery_guards_and_never_self demoCfg [] wrongTenantMsg
    "10.0.0.9" 0 [(some goodMsg, "10.0.0.9", 5)]
  refine ⟨H.1 (by right; left; decide), H.2.1, ?_⟩
  exact H.2.2 (by intro p hp; exact absurd hp (List.not_mem_nil p))
    ⟨some "pod-x", some "10.0.0.9", some 3000, 5, "10.0.0.9"⟩ (by decide)

/-! Responsibility-set shape lemmas. -/

lemma getResponsiblePeers_mem (peers : List Peer) (key : String)
    (hne : peers.length ≠ 0) :
    ∀ p ∈ getResponsiblePeers peers key, p ∈ peers := by
  intro p hp
  unfold getResponsiblePeers at hp
  rw [if_neg hne] at hp
  rcases List.mem_map.mp hp with ⟨i, _, hpi⟩
  have hidx : (hashKey key % peers.length + i) % peers.length < peers.length :=
    Nat.mod_lt _ (Nat.pos_iff_ne_zero.mpr hne)
  rw [List.getD_eq_getElem peers default hidx] at hpi
  exact hpi ▸ List.getElem_mem hidx

/-- C10: for every non-empty peer snapshot with pairwise-distinct peer
names (as the Peer Registry guarantees), the Responsibility Set has
pairwise-distinct elements, every element belongs to the snapshot, and
an instance name absent from the snapshot — in particular the local
instance, which the registry never contains — never appears in it. -/
theorem getResponsiblePeers_nodup_subset (peers : List Peer) (key : String)
    (hne : peers ≠ []) (hnd : (peers.map Peer.name).Nodup) :
    (getResponsiblePeers peers key).Nodup ∧
    (∀ p ∈ getResponsiblePeers peers key, p ∈ peers) ∧
    ∀ localName, localName ∉ peers.map Peer.name →
      ∀ p ∈ getResponsiblePeers peers key, p.name ≠ localName := by
  have hlen : peers.length ≠ 0 := fun h => hne (List.eq_nil_of_length_eq_zero h)
  have hpos : 0 < peers.length := Nat.pos_iff_ne_zero.mpr hlen
  have hmem := getResponsiblePeers_mem peers key hlen
  have hndp : peers.Nodup := List.Nodup.of_map _ hnd
  refine ⟨?_, hmem, ?_⟩
  · rcases Nat.lt_or_ge peers.length 2 with h2 | h2
    · have h1 : peers.length = 1 := by omega
      have hmin : min replicationFactor peers.length = 1 := by
        simp [replicationFactor, h1]
      unfold getResponsiblePeers
      rw [if_neg hlen]
      simp [hmin, List.range_succ]
    · have hmin : min replicationFactor peers.length = 2 := by
        simp only [replicationFactor]
        omega
      have hs : hashKey key % peers.length < peers.length :=
        Nat.mod_lt _ hpos
      have hi0 : (hashKey key % peers.length + 0) % peers.length =
          hashKey key % peers.length := by
        simp [Nat.mod_eq_of_lt hs]
      have hi1lt : (hashKey key % peers.length + 1) % peers.length <
          peers.length := Nat.mod_lt _ hpos
      have hne01 : hashKey key % peers.length ≠
          (hashKey key % peers.length + 1) % peers.length := by
        rcases Nat.lt_or_ge (hashKey key % peers.length + 1) peers.length
          with hlt | hge
        · rw [Nat.mod_eq_of_lt hlt]
          omega
        · have heq : hashKey key % peers.length + 1 = peers.length := by omega
          rw [heq, Nat.mod_self]
          omega
      unfold getResponsiblePeers
      rw [if_neg hlen]
      rw [hmin]
      have hrange : List.range 2 = [0, 1] := by decide
      rw [hrange]
      simp only [List.map_cons, List.map_nil, List.nodup_cons,
        List.mem_singleton, List.not_mem_nil, List.nodup_nil, and_true,
        not_false_eq_true]
      intro hcontra
      rw [List.getD_eq_getElem peers default (by rw [hi0]; exact hs),
        List.getD_eq_getElem peers default hi1lt] at hcontra
      have := (List.Nodup.getElem_inj_iff hndp).mp hcontra
      rw [hi0] at this
      exact hne01 this
  · intro localName hlocal p hp hpn
    exact hlocal (hpn ▸ List.mem_map_of_mem Peer.name (hmem p hp))

/-- C10 witness: on the two-peer snapshot, the Responsibility Set for
"x" is duplicate-free, contains peer-1 from the snapshot, and does not
contain the local pod name. -/
theorem getResponsiblePeers_nodup_subset_witness :
    (getResponsiblePeers [peerOne, peerTwo] "x").Nodup ∧
    peerOne ∈ [peerOne, peerTwo] ∧
    peerOne.name ≠ "pod-self" := by
  have H := getResponsiblePeers_nodup_subset [peerOne, peerTwo] "x"
    (by decide) (by decide)
  exact ⟨H.1, H.2.1 peerOne (by decide), H.2.2 "pod-self" (by decide)
    peerOne (by decide)⟩
